import Mathlib

/-
Verification of the mutation-mapping pipeline (mutation_map.py).

The Python source is shallowly embedded: file writes are modelled as the
list of data records (resp. lines) the code emits, regular-expression
matching is modelled by executable character-list functions that mirror the
deterministic maximal-munch behaviour of the concrete patterns used by the
code, and the external process invocation is modelled by its exit code.
Python's re module would also accept non-ASCII Unicode digits for the
escape d; the embedding uses ASCII digits (Char.isDigit), which is the
alphabet of all data handled by this pipeline.
-/

namespace MutationMap

/-! ## Genome position enumerator (generate_dummy_vcf) -/

/-- Reference genome identifier, constant GENOME_REF in the source. -/
def GENOME_REF : String := "NC_045512.2"

/-- Last genome position enumerated by generate_dummy_vcf: the source loops
over range(1, 29728), i.e. positions 1 .. 29727. -/
def genomeLastPosition : Nat := 29727

/-- The four nucleotide bases. -/
def nucleotides : List Char := ['A', 'C', 'G', 'T']

/-- The fixed list of 12 ordered (ref, alt) substitution pairs, in the order
hard-coded in the inner loop of generate_dummy_vcf. -/
def substitutionPairs : List (Char × Char) :=
  [('A', 'C'), ('A', 'T'), ('A', 'G'), ('C', 'A'), ('C', 'T'), ('C', 'G'),
   ('G', 'C'), ('G', 'T'), ('G', 'A'), ('T', 'C'), ('T', 'G'), ('T', 'A')]

/-- The sequence of (position, ref, alt) triples written by the nested loops
of generate_dummy_vcf, generalised over the number of positions L: the outer
loop runs over positions 1 .. L (the source fixes L = 29727 via
range(1, 29728)), the inner loop over substitutionPairs. -/
def enumerateSubstitutions (L : Nat) : List (Nat × Char × Char) :=
  (List.range' 1 L).flatMap fun pos => substitutionPairs.map fun nuc => (pos, nuc.1, nuc.2)

/-- The data records generate_dummy_vcf actually writes: the enumeration at
the hard-coded genome length. -/
def dummyVcfDataRecords : List (Nat × Char × Char) :=
  enumerateSubstitutions genomeLastPosition

theorem length_enumerateSubstitutions (L : Nat) :
    (enumerateSubstitutions L).length = 12 * L := by
  simp only [enumerateSubstitutions, List.length_flatMap, Function.comp_def, List.length_map,
    show substitutionPairs.length = 12 from rfl, List.map_const', List.sum_replicate,
    List.length_range', smul_eq_mul]
  omega

theorem mem_enumerateSubstitutions (L p : Nat) (r a : Char) :
    (p, r, a) ∈ enumerateSubstitutions L ↔
      (1 ≤ p ∧ p ≤ L ∧ (r, a) ∈ substitutionPairs) := by
  unfold enumerateSubstitutions
  simp only [List.mem_flatMap, List.mem_map, List.mem_range'_1, Prod.mk.injEq]
  constructor
  · rintro ⟨pos, ⟨h1, h2⟩, ⟨x, y⟩, hxy, rfl, rfl, rfl⟩
    exact ⟨h1, by omega, hxy⟩
  · rintro ⟨h1, h2, hmem⟩
    exact ⟨p, ⟨h1, by omega⟩, (r, a), hmem, rfl, rfl, rfl⟩

theorem nodup_enumerateSubstitutions (L : Nat) :
    (enumerateSubstitutions L).Nodup := by
  unfold enumerateSubstitutions
  rw [List.nodup_flatMap]
  constructor
  · intro pos _
    apply List.Nodup.map
    · intro x y hxy
      simp only [Prod.mk.injEq] at hxy
      exact Prod.ext hxy.2.1 hxy.2.2
    · decide
  · apply List.Pairwise.imp ?_ (List.nodup_range' 1 L)
    intro p q hpq
    intro triple h1 h2
    simp only [List.mem_map] at h1 h2
    obtain ⟨x, _, rfl⟩ := h1
    obtain ⟨y, _, hy⟩ := h2
    exact hpq (congrArg Prod.fst hy.symm)

theorem mem_substitutionPairs_iff (r a : Char) :
    (r, a) ∈ substitutionPairs ↔ (r ∈ nucleotides ∧ a ∈ nucleotides ∧ r ≠ a) := by
  constructor
  · intro h
    fin_cases h <;> decide
  · rintro ⟨hr, ha, hne⟩
    fin_cases hr <;> fin_cases ha <;>
      first
        | exact absurd rfl hne
        | decide

/-- C1: for every genome length L greater or equal 1 (the source fixes L by its
hard-coded constant), the enumerator yields exactly 12 * L substitution
records, with no duplicate, and a triple (p, r, a) is enumerated exactly when
1 <= p <= L and r, a are distinct nucleotide bases: every ordered (ref, alt)
pair with ref different from alt occurs at every position, none missing, none
repeated. -/
theorem enumerateSubstitutions_exhaustive (L : Nat) (hL : 1 ≤ L) :
    (enumerateSubstitutions L).length = 12 * L ∧
    (enumerateSubstitutions L).Nodup ∧
    ∀ p r a, ((p, r, a) ∈ enumerateSubstitutions L ↔
      1 ≤ p ∧ p ≤ L ∧ r ∈ nucleotides ∧ a ∈ nucleotides ∧ r ≠ a) := by
  refine ⟨length_enumerateSubstitutions L, nodup_enumerateSubstitutions L, ?_⟩
  intro p r a
  rw [mem_enumerateSubstitutions, mem_substitutionPairs_iff]

/-- Witness for C1 at the concrete length L = 2. -/
theorem enumerateSubstitutions_exhaustive_witness :
    1 ≤ 2 ∧ (enumerateSubstitutions 2).length = 12 * 2 ∧
      (2, 'T', 'A') ∈ enumerateSubstitutions 2 :=
  ⟨by decide, (enumerateSubstitutions_exhaustive 2 (by decide)).1,
    ((enumerateSubstitutions_exhaustive 2 (by decide)).2.2 2 'T' 'A').mpr (by decide)⟩

/-- C10: generate_dummy_vcf enumerates positions 1 .. 29727 (range(1, 29728))
and writes exactly 12 * 29727 = 356724 data rows; no position above 29727 is
ever enumerated, the length being the hard-coded constant genomeLastPosition. -/
theorem dummyVcfDataRecords_count :
    genomeLastPosition = 29727 ∧
    dummyVcfDataRecords = enumerateSubstitutions 29727 ∧
    dummyVcfDataRecords.length = 356724 ∧
    ∀ rec ∈ dummyVcfDataRecords, 1 ≤ rec.1 ∧ rec.1 ≤ 29727 := by
  refine ⟨rfl, rfl, ?_, ?_⟩
  · show (enumerateSubstitutions 29727).length = 356724
    rw [length_enumerateSubstitutions]
  · rintro ⟨p, r, a⟩ hrec
    rw [show dummyVcfDataRecords = enumerateSubstitutions 29727 from rfl,
      mem_enumerateSubstitutions] at hrec
    exact ⟨hrec.1, hrec.2.1⟩

/-- Witness for C10 at the concrete record (1, A, C). -/
theorem dummyVcfDataRecords_count_witness :
    1 ≤ (1, 'A', 'C').1 ∧ (1, 'A', 'C').1 ≤ 29727 :=
  dummyVcfDataRecords_count.2.2.2 (1, 'A', 'C')
    ((mem_enumerateSubstitutions 29727 1 'A' 'C').mpr (by decide))

/-! ## Annotation invoker (launch_snpeff) -/

/-- Embedding of subprocess.run(cmd, shell=True, check=True), indexed by the
exit status of the external process: with check=True, Python raises
CalledProcessError exactly when the return code is non-zero; the embedding
returns the error in the Except monad. -/
def subprocessRunChecked (returncode : Nat) : Except Nat Unit :=
  if returncode = 0 then Except.ok () else Except.error returncode

/-- launch_snpeff runs the external annotation command through
subprocess.run with check=True and no exception handler, so the result is
exactly the result of the checked run. -/
def launch_snpeff (returncode : Nat) : Except Nat Unit :=
  subprocessRunChecked returncode

/-- C8: launch_snpeff returns normally if and only if the external process
exits with status zero, and a non-zero exit status is surfaced as a raised
error carrying that status (aborting the pipeline) rather than absorbed. -/
theorem launch_snpeff_ok_iff (returncode : Nat) :
    (launch_snpeff returncode = Except.ok () ↔ returncode = 0) ∧
    (returncode ≠ 0 → launch_snpeff returncode = Except.error returncode) := by
  unfold launch_snpeff subprocessRunChecked
  constructor
  · split <;> simp_all
  · intro h
    simp [h]

/-- Witness for C8 at exit statuses 0 and 2. -/
theorem launch_snpeff_ok_iff_witness :
    launch_snpeff 0 = Except.ok () ∧ launch_snpeff 2 = Except.error 2 :=
  ⟨(launch_snpeff_ok_iff 0).1.mpr rfl, (launch_snpeff_ok_iff 2).2 (by decide)⟩

/-! ## Amino-acid normalizer (convert_protein_mutations_from_3_to_1_letters) -/

/-- The fixed amino-acid table Bio.Data.IUPACData.protein_letters_3to1_extended
used by the source: the twenty standard residues plus the six extended codes. -/
def protein_letters_3to1_extended : List (List Char × Char) :=
  [("Ala".data, 'A'), ("Cys".data, 'C'), ("Asp".data, 'D'), ("Glu".data, 'E'),
   ("Phe".data, 'F'), ("Gly".data, 'G'), ("His".data, 'H'), ("Ile".data, 'I'),
   ("Lys".data, 'K'), ("Leu".data, 'L'), ("Met".data, 'M'), ("Asn".data, 'N'),
   ("Pro".data, 'P'), ("Gln".data, 'Q'), ("Arg".data, 'R'), ("Ser".data, 'S'),
   ("Thr".data, 'T'), ("Val".data, 'V'), ("Trp".data, 'W'), ("Tyr".data, 'Y'),
   ("Asx".data, 'B'), ("Xaa".data, 'X'), ("Glx".data, 'Z'), ("Xle".data, 'J'),
   ("Sec".data, 'U'), ("Pyl".data, 'O')]

/-- Embedding of re.match applied to the pattern
p backslash-dot (group acid1: one of A-Z, one of a-z, one of a-z)
(group pos: one or more of 0-9) (group acid2: as acid1) on a string. re.match
anchors at the start of the string only, so trailing characters after the
matched part are ignored. The pattern is deterministic: the digit group is
the maximal digit run (the following character must be an upper-case letter,
so backtracking into the digit run can never succeed), hence the single
maximal-munch pass below is exact. Returns the three captured groups. -/
def matchPMut (cs : List Char) : Option (List Char × List Char × List Char) :=
  match cs with
  | c0 :: c1 :: a :: b :: c :: rest =>
    if c0 = 'p' && c1 = '.' && a.isUpper && b.isLower && c.isLower then
      let ds := rest.takeWhile Char.isDigit
      if ds.isEmpty then none
      else
        match rest.dropWhile Char.isDigit with
        | d :: e :: f :: _ =>
          if d.isUpper && e.isLower && f.isLower then some ([a, b, c], ds, [d, e, f]) else none
        | _ => none
    else none
  | _ => none

/-- The per-string body of convert_protein_mutations_from_3_to_1_letters:
match the pattern, look both 3-letter codes up in the table, and build the
1-letter form; any assertion failure (no match, unknown code) is caught and
yields no output for that string. -/
def convertOneProteinMutation (s : String) : Option String :=
  match matchPMut s.data with
  | none => none
  | some (a1, ds, a2) =>
    match protein_letters_3to1_extended.lookup a1, protein_letters_3to1_extended.lookup a2 with
    | some x, some y => some (String.mk (x :: (ds ++ [y])))
    | _, _ => none

/-- convert_protein_mutations_from_3_to_1_letters: each input string is
converted independently; strings whose conversion fails are skipped and the
loop continues, so the result is the filterMap of the per-string body. -/
def convert_protein_mutations_from_3_to_1_letters (muts : List String) : List String :=
  muts.filterMap convertOneProteinMutation

/-- Modelled from the spec: the shape the specification describes for a raw
protein mutation, namely that THE WHOLE string is p-dot + 3-letter acid +
integer position + 3-letter acid, each acid being exactly one upper-case
letter followed by two lower-case letters. (The source instead matches this
pattern against a prefix of the string; this definition exists to compare
the two behaviours.) -/
def specFullPatternShape (s : String) : Bool :=
  match s.data with
  | c0 :: c1 :: a :: b :: c :: rest =>
    c0 = 'p' && c1 = '.' && a.isUpper && b.isLower && c.isLower &&
      !(rest.takeWhile Char.isDigit).isEmpty &&
      (match rest.dropWhile Char.isDigit with
       | [d, e, f] => d.isUpper && e.isLower && f.isLower
       | _ => false)
  | _ => false

/-- Shape of a 3-letter acid code group in the pattern: exactly one
upper-case letter followed by two lower-case letters. -/
def threeLetterShape (l : List Char) : Bool :=
  match l with
  | [a, b, c] => a.isUpper && b.isLower && c.isLower
  | _ => false

theorem upper_not_digit (c : Char) (h : c.isUpper = true) : c.isDigit = false := by
  simp only [Char.isUpper, Char.isDigit, Bool.and_eq_true, decide_eq_true_eq,
    Bool.and_eq_false_iff, decide_eq_false_iff_not, not_le,
    UInt32.le_def, UInt32.lt_def, BitVec.le_def, BitVec.lt_def,
    show (UInt32.toBitVec 65).toNat = 65 from rfl,
    show (UInt32.toBitVec 90).toNat = 90 from rfl,
    show (UInt32.toBitVec 48).toNat = 48 from rfl,
    show (UInt32.toBitVec 57).toNat = 57 from rfl] at *
  omega

theorem takeWhile_append_stop {α : Type} {p : α → Bool} {xs : List α} {y : α} {ys : List α}
    (hxs : ∀ x ∈ xs, p x = true) (hy : p y = false) :
    (xs ++ y :: ys).takeWhile p = xs := by
  induction xs with
  | nil => simp [List.takeWhile_cons, hy]
  | cons a t ih =>
    have ha := hxs a (List.mem_cons_self a t)
    simp only [List.cons_append, List.takeWhile_cons, ha, if_true]
    rw [ih fun x hx => hxs x (List.mem_cons_of_mem a hx)]

theorem dropWhile_append_stop {α : Type} {p : α → Bool} {xs : List α} {y : α} {ys : List α}
    (hxs : ∀ x ∈ xs, p x = true) (hy : p y = false) :
    (xs ++ y :: ys).dropWhile p = y :: ys := by
  induction xs with
  | nil => simp [List.dropWhile_cons, hy]
  | cons a t ih =>
    have ha := hxs a (List.mem_cons_self a t)
    simp only [List.cons_append, List.dropWhile_cons, ha, if_true]
    exact ih fun x hx => hxs x (List.mem_cons_of_mem a hx)

/-- C7: conversion of the three example strings from the specification, plus
a batch containing the malformed one, which is dropped while the rest of the
batch is still processed. -/
theorem convert_spec_examples :
    convert_protein_mutations_from_3_to_1_letters ["p.Thr5262Ile"] = ["T5262I"] ∧
    convert_protein_mutations_from_3_to_1_letters ["p.Ser3Ser"] = ["S3S"] ∧
    convert_protein_mutations_from_3_to_1_letters ["p.XyzZQ"] = [] ∧
    convert_protein_mutations_from_3_to_1_letters ["p.Thr5262Ile", "p.XyzZQ", "p.Ser3Ser"] =
      ["T5262I", "S3S"] := by
  decide

/-- Counterexample to C2: the string p.Ser3Serx is not of the claimed shape
(it has a trailing x after the second acid code), yet the converter emits an
entry for it, because re.match only anchors the pattern at the start of the
string. -/
theorem convert_trailing_garbage_counterexample :
    convert_protein_mutations_from_3_to_1_letters ["p.Ser3Serx"] = ["S3S"] ∧
    specFullPatternShape "p.Ser3Serx" = false := by
  decide

/-- C2 (amended): the converter produces an output entry for a string if and
only if some PREFIX of the string has the shape p-dot + 3-letter acid +
digits + 3-letter acid with both acid codes in the fixed table (re.match
anchors the pattern at the start of the string only, so characters following
the matched part are ignored); on success the entry is the 1-letter form of
the maximal-munch decomposition. Strings with no such prefix, or with an
unrecognized acid code, produce no entry and no error. -/
theorem convertOne_prefix_match_characterization (s : String) :
    (∀ a1 ds a2 tail x y,
      s.data = 'p' :: '.' :: (a1 ++ ds ++ a2 ++ tail) →
      threeLetterShape a1 = true →
      ds ≠ [] →
      ds.all Char.isDigit = true →
      threeLetterShape a2 = true →
      protein_letters_3to1_extended.lookup a1 = some x →
      protein_letters_3to1_extended.lookup a2 = some y →
      convertOneProteinMutation s = some (String.mk (x :: (ds ++ [y])))) ∧
    ((convertOneProteinMutation s).isSome = true →
      ∃ a1 ds a2 tail,
        s.data = 'p' :: '.' :: (a1 ++ ds ++ a2 ++ tail) ∧
        threeLetterShape a1 = true ∧ ds ≠ [] ∧ ds.all Char.isDigit = true ∧
        threeLetterShape a2 = true ∧
        (protein_letters_3to1_extended.lookup a1).isSome = true ∧
        (protein_letters_3to1_extended.lookup a2).isSome = true) := by
  constructor
  · intro a1 ds a2 tail x y hdata h1 hne hdig h2 hx hy
    rcases a1 with _ | ⟨u1, _ | ⟨v1, _ | ⟨w1, _ | ⟨z1, r1⟩⟩⟩⟩ <;>
      simp [threeLetterShape] at h1
    rcases a2 with _ | ⟨u2, _ | ⟨v2, _ | ⟨w2, _ | ⟨z2, r2⟩⟩⟩⟩ <;>
      simp [threeLetterShape] at h2
    obtain ⟨⟨hu1, hv1⟩, hw1⟩ := h1
    obtain ⟨⟨hu2, hv2⟩, hw2⟩ := h2
    have hdig' : ∀ c ∈ ds, Char.isDigit c = true := by
      simpa [List.all_eq_true] using hdig
    have hstop : Char.isDigit u2 = false := upper_not_digit u2 hu2
    have htW : (ds ++ u2 :: v2 :: w2 :: tail).takeWhile Char.isDigit = ds :=
      takeWhile_append_stop hdig' hstop
    have hdW : (ds ++ u2 :: v2 :: w2 :: tail).dropWhile Char.isDigit = u2 :: v2 :: w2 :: tail :=
      dropWhile_append_stop hdig' hstop
    have hdata' : s.data = 'p' :: '.' :: u1 :: v1 :: w1 :: (ds ++ u2 :: v2 :: w2 :: tail) := by
      simpa using hdata
    have hds : ds.isEmpty = false := List.isEmpty_eq_false.mpr hne
    simp [convertOneProteinMutation, hdata', matchPMut, hu1, hv1, hw1, htW, hdW,
      hu2, hv2, hw2, hds, hx, hy]
  · intro hsome
    cases hm : matchPMut s.data with
    | none =>
      unfold convertOneProteinMutation at hsome
      rw [hm] at hsome
      simp at hsome
    | some t =>
      obtain ⟨a1, ds, a2⟩ := t
      have hdef : convertOneProteinMutation s =
          match protein_letters_3to1_extended.lookup a1,
              protein_letters_3to1_extended.lookup a2 with
          | some x, some y => some (String.mk (x :: (ds ++ [y])))
          | _, _ => none := by
        unfold convertOneProteinMutation
        rw [hm]
      have hlook : (protein_letters_3to1_extended.lookup a1).isSome = true ∧
          (protein_letters_3to1_extended.lookup a2).isSome = true := by
        rw [hdef] at hsome
        cases hx : protein_letters_3to1_extended.lookup a1 with
        | none => rw [hx] at hsome; simp at hsome
        | some x =>
          cases hy : protein_letters_3to1_extended.lookup a2 with
          | none => rw [hx, hy] at hsome; simp at hsome
          | some y => simp [hx, hy]
      clear hsome hdef
      rcases hcs : s.data with _ | ⟨c0, _ | ⟨c1, _ | ⟨a, _ | ⟨b, _ | ⟨c, rest⟩⟩⟩⟩⟩ <;>
        rw [hcs] at hm <;>
        [exact absurd hm (by simp [matchPMut]);
         exact absurd hm (by simp [matchPMut]);
         exact absurd hm (by simp [matchPMut]);
         exact absurd hm (by simp [matchPMut]);
         exact absurd hm (by simp [matchPMut]);
         skip]
      simp only [matchPMut] at hm
      by_cases hcond : (c0 = 'p' && c1 = '.' && a.isUpper && b.isLower && c.isLower) = true
      case neg => rw [if_neg hcond] at hm; exact absurd hm (by simp)
      rw [if_pos hcond] at hm
      by_cases hempty : (rest.takeWhile Char.isDigit).isEmpty = true
      case pos => rw [if_pos hempty] at hm; exact absurd hm (by simp)
      rw [if_neg hempty] at hm
      rcases hdw : rest.dropWhile Char.isDigit with _ | ⟨d, _ | ⟨e, _ | ⟨f, rest2⟩⟩⟩ <;>
        rw [hdw] at hm <;>
        [exact absurd hm (by simp);
         exact absurd hm (by simp);
         exact absurd hm (by simp);
         skip]
      have hm' : (if (d.isUpper && e.isLower && f.isLower) = true then
          some (([a, b, c], rest.takeWhile Char.isDigit, [d, e, f]) :
            List Char × List Char × List Char)
          else none) = some (a1, ds, a2) := hm
      clear hm
      rename' hm' => hm
      by_cases hcond2 : (d.isUpper && e.isLower && f.isLower) = true
      case neg => rw [if_neg hcond2] at hm; exact absurd hm (by simp)
      rw [if_pos hcond2] at hm
      simp only [Option.some.injEq, Prod.mk.injEq] at hm
      obtain ⟨ha1, hds, ha2⟩ := hm
      subst ha1 hds ha2
      simp only [Bool.and_eq_true, decide_eq_true_eq] at hcond hcond2
      obtain ⟨⟨⟨⟨hc0, hc1⟩, hA⟩, hB⟩, hC⟩ := hcond
      obtain ⟨⟨hD, hE⟩, hF⟩ := hcond2
      subst hc0 hc1
      refine ⟨[a, b, c], rest.takeWhile Char.isDigit, [d, e, f], rest2,
        ?_, ?_, ?_, ?_, ?_, hlook.1, hlook.2⟩
      · have hrest : rest = rest.takeWhile Char.isDigit ++ ([d, e, f] ++ rest2) := by
          rw [show ([d, e, f] : List Char) ++ rest2 = d :: e :: f :: rest2 from rfl, ← hdw]
          exact (List.takeWhile_append_dropWhile Char.isDigit rest).symm
        conv_lhs => rw [hrest]
        simp
      · simp [threeLetterShape, hA, hB, hC]
      · simpa using hempty
      · exact List.all_takeWhile
      · simp [threeLetterShape, hD, hE, hF]

/-- Witness for C2: the amended characterization applied at the concrete
string p.Ser3Serx with its maximal-munch decomposition. -/
theorem convertOne_prefix_match_characterization_witness :
    convertOneProteinMutation "p.Ser3Serx" = some "S3S" := by
  have h := (convertOne_prefix_match_characterization "p.Ser3Serx").1
    "Ser".data "3".data "Ser".data "x".data 'S' 'S'
    (by decide) (by decide) (by decide) (by decide) (by decide) (by decide) (by decide)
  simpa using h

/-! ## Annotation parser (extract_protein_mutations) -/

/-- The literal head of the extraction pattern: the biotype marker
protein_coding followed by the field separator bar. -/
def pcLit : List Char := "protein_coding|".data

/-- The character class of the nucleotide-change group in the extraction
pattern: the characters c, dot, digits, A, C, G, T and the greater-than
sign. -/
def nucClassChar (c : Char) : Bool :=
  c = 'c' || c = '.' || c.isDigit || c = 'A' || c = 'C' || c = 'G' || c = 'T' || c = '>'

/-- One attempted match, at the head of the given character list, of the
pattern protein_coding bar digits-plus slash digits-plus bar nucleotide-class
star bar (group prot_mut: anything-but-bar star), exactly the regular
expression of extract_protein_mutations. Every quantified group of that
pattern is determinate (backtracking can never extend or shrink a run:
a slash or bar never belongs to the preceding run's class), so single
maximal-munch passes are exact. Returns the captured prot_mut group and the
remainder of the input after the match (the match ends with the group, which
is last in the pattern). -/
def tryMatchANN (cs : List Char) : Option (List Char × List Char) :=
  if pcLit.isPrefixOf cs then
    let r1 := cs.drop pcLit.length
    let d1 := r1.takeWhile Char.isDigit
    let r2 := r1.dropWhile Char.isDigit
    if d1.isEmpty then none
    else if r2.head? = some '/' then
      let r3 := r2.tail
      let d2 := r3.takeWhile Char.isDigit
      let r4 := r3.dropWhile Char.isDigit
      if d2.isEmpty then none
      else if r4.head? = some '|' then
        let r5 := r4.tail
        let r6 := r5.dropWhile nucClassChar
        if r6.head? = some '|' then
          let r7 := r6.tail
          some (r7.takeWhile (fun ch => !(ch = '|')), r7.dropWhile (fun ch => !(ch = '|')))
        else none
      else none
    else none
  else none

theorem tryMatchANN_rest_length (cs : List Char) (pr : List Char × List Char)
    (h : tryMatchANN cs = some pr) : pr.2.length < cs.length := by
  unfold tryMatchANN at h
  by_cases hpfx : pcLit.isPrefixOf cs
  case neg => rw [if_neg hpfx] at h; exact absurd h (by simp)
  rw [if_pos hpfx] at h
  have hcs15 : 15 ≤ cs.length := by
    have hp : pcLit <+: cs := by simpa using hpfx
    simpa [pcLit] using hp.length_le
  simp only at h
  by_cases h1 : ((cs.drop pcLit.length).takeWhile Char.isDigit).isEmpty = true
  case pos => rw [if_pos h1] at h; exact absurd h (by simp)
  rw [if_neg h1] at h
  by_cases h2 : ((cs.drop pcLit.length).dropWhile Char.isDigit).head? = some '/'
  case neg => rw [if_neg h2] at h; exact absurd h (by simp)
  rw [if_pos h2] at h
  by_cases h3 : (((cs.drop pcLit.length).dropWhile Char.isDigit).tail.takeWhile
      Char.isDigit).isEmpty = true
  case pos => rw [if_pos h3] at h; exact absurd h (by simp)
  rw [if_neg h3] at h
  by_cases h4 : (((cs.drop pcLit.length).dropWhile Char.isDigit).tail.dropWhile
      Char.isDigit).head? = some '|'
  case neg => rw [if_neg h4] at h; exact absurd h (by simp)
  rw [if_pos h4] at h
  by_cases h5 : ((((cs.drop pcLit.length).dropWhile Char.isDigit).tail.dropWhile
      Char.isDigit).tail.dropWhile nucClassChar).head? = some '|'
  case neg => rw [if_neg h5] at h; exact absurd h (by simp)
  rw [if_pos h5] at h
  simp only [Option.some.injEq] at h
  subst h
  have e1 : ((cs.drop pcLit.length).dropWhile Char.isDigit).length ≤
      (cs.drop pcLit.length).length :=
    (List.dropWhile_sublist Char.isDigit).length_le
  have e2 : (((cs.drop pcLit.length).dropWhile Char.isDigit).tail.dropWhile
      Char.isDigit).length ≤ ((cs.drop pcLit.length).dropWhile Char.isDigit).tail.length :=
    (List.dropWhile_sublist Char.isDigit).length_le
  have e3 : ((((cs.drop pcLit.length).dropWhile Char.isDigit).tail.dropWhile
      Char.isDigit).tail.dropWhile nucClassChar).length ≤
      (((cs.drop pcLit.length).dropWhile Char.isDigit).tail.dropWhile
        Char.isDigit).tail.length :=
    (List.dropWhile_sublist nucClassChar).length_le
  have e4 : (((((cs.drop pcLit.length).dropWhile Char.isDigit).tail.dropWhile
      Char.isDigit).tail.dropWhile nucClassChar).tail.dropWhile
        (fun ch => !(ch = '|'))).length ≤
      ((((cs.drop pcLit.length).dropWhile Char.isDigit).tail.dropWhile
        Char.isDigit).tail.dropWhile nucClassChar).tail.length :=
    (List.dropWhile_sublist (fun ch => !(ch = '|'))).length_le
  have e5 : (cs.drop pcLit.length).length = cs.length - 15 := by
    simp [pcLit]
  simp only [List.length_tail] at *
  omega

/-- Fuel-indexed version of the scanning loop of re.finditer for the
extraction pattern: at each position try a match; on success emit the
captured group and resume after the match, otherwise advance one character.
Each step strictly shortens the input, so an initial fuel exceeding the
input length never runs out (scanANNFuel_congr below). -/
def scanANNFuel : Nat → List Char → List (List Char)
  | 0, _ => []
  | fuel + 1, cs =>
    match tryMatchANN cs with
    | some pr => pr.1 :: scanANNFuel fuel pr.2
    | none =>
      match cs with
      | [] => []
      | _ :: t => scanANNFuel fuel t

/-- The finditer scan over a character list, with provably sufficient fuel. -/
def scanANN (cs : List Char) : List (List Char) :=
  scanANNFuel (cs.length + 1) cs

theorem scanANNFuel_congr : ∀ (f1 f2 : Nat) (cs : List Char),
    cs.length < f1 → cs.length < f2 → scanANNFuel f1 cs = scanANNFuel f2 cs := by
  intro f1
  induction f1 with
  | zero => intro f2 cs h1 _; omega
  | succ f ih =>
    intro f2 cs h1 h2
    cases f2 with
    | zero => omega
    | succ g =>
      cases hm : tryMatchANN cs with
      | some pr =>
        have hlt := tryMatchANN_rest_length cs pr hm
        simp only [scanANNFuel, hm]
        rw [ih g pr.2 (by omega) (by omega)]
      | none =>
        cases cs with
        | nil => simp [scanANNFuel, hm]
        | cons c t =>
          simp only [scanANNFuel, hm]
          simp only [List.length_cons] at h1 h2
          exact ih g t (by omega) (by omega)

theorem scanANN_some {cs : List Char} {pr : List Char × List Char}
    (h : tryMatchANN cs = some pr) : scanANN cs = pr.1 :: scanANN pr.2 := by
  have e : scanANNFuel (cs.length + 1) cs = pr.1 :: scanANNFuel cs.length pr.2 := by
    simp only [scanANNFuel, h]
  unfold scanANN
  rw [e, scanANNFuel_congr cs.length (pr.2.length + 1) pr.2
    (tryMatchANN_rest_length cs pr h) (by omega)]

theorem scanANN_cons_none {c : Char} {t : List Char}
    (h : tryMatchANN (c :: t) = none) : scanANN (c :: t) = scanANN t := by
  unfold scanANN
  simp only [List.length_cons, scanANNFuel, h]

theorem scanANN_nil : scanANN ([] : List Char) = [] := rfl

/-- extract_protein_mutations: collect, in order, the prot_mut group of every
non-overlapping match of the extraction pattern in the INFO text. -/
def extract_protein_mutations (info : String) : List String :=
  (scanANN info.data).map fun g => String.mk g

/-- No match of the extraction pattern can start inside xs when ys follows
it: no suffix of xs (continued by ys) starts with the literal head
protein_coding bar of the pattern. -/
def noStartB (xs ys : List Char) : Bool :=
  (List.range xs.length).all fun n => !(pcLit.isPrefixOf (xs.drop n ++ ys))

/-- Structured form of one protein-coding transcript annotation entry as the
extraction pattern sees it: exon rank d1 slash d2, nucleotide change, protein
change. -/
structure AnnEntryCore where
  d1 : List Char
  d2 : List Char
  nuc : List Char
  prot : List Char

/-- The character text of the entry core: protein_coding bar d1 slash d2 bar
nucleotide-change bar protein-change. -/
def AnnEntryCore.render (e : AnnEntryCore) : List Char :=
  pcLit ++ e.d1 ++ '/' :: e.d2 ++ '|' :: e.nuc ++ '|' :: e.prot

/-- Well-formedness of an entry core: both exon-rank components are nonempty
digit runs, the nucleotide change stays in its character class, and the
protein change contains no field separator. -/
def AnnEntryCore.ok (e : AnnEntryCore) : Bool :=
  !e.d1.isEmpty && e.d1.all Char.isDigit && !e.d2.isEmpty && e.d2.all Char.isDigit &&
    e.nuc.all nucClassChar && e.prot.all fun ch => !(ch = '|')

/-- Concatenation of rendered entry cores, each followed by its trailing gap
(the remaining fields of the entry plus everything up to the next
protein-coding entry). -/
def annChunks : List (AnnEntryCore × List Char) → List Char
  | [] => []
  | (e, gap) :: t => e.render ++ (gap ++ annChunks t)

/-- Well-formedness of an entry-gap list: every core is well formed, every
gap starts with a field separator (or is empty at the very end), and no
match of the pattern can start inside a gap. -/
def annChunksOk : List (AnnEntryCore × List Char) → Bool
  | [] => true
  | (e, gap) :: t =>
    e.ok && (gap.head? = some '|' || (gap.isEmpty && t.isEmpty)) &&
      noStartB gap (annChunks t) && annChunksOk t

theorem tryMatchANN_none_of_no_pcLit {cs : List Char} (h : ¬ pcLit <+: cs) :
    tryMatchANN cs = none := by
  unfold tryMatchANN
  rw [if_neg]
  simpa using h

theorem scanANN_append_of_noStart (xs ys : List Char) (h : noStartB xs ys = true) :
    scanANN (xs ++ ys) = scanANN ys := by
  induction xs with
  | nil => simp
  | cons c t ih =>
    have hall : ∀ n, n < (c :: t).length → ¬ pcLit <+: ((c :: t).drop n ++ ys) := by
      intro n hn hcontra
      have h' := List.all_eq_true.mp h n (List.mem_range.mpr hn)
      rw [← List.isPrefixOf_iff_prefix] at hcontra
      simp [hcontra] at h'
    have h0 : ¬ pcLit <+: (c :: (t ++ ys)) := by
      have := hall 0 (by simp)
      simpa using this
    rw [List.cons_append, scanANN_cons_none (tryMatchANN_none_of_no_pcLit h0)]
    apply ih
    rw [noStartB, List.all_eq_true]
    intro n hn
    have hn' : n < t.length := List.mem_range.mp hn
    have h2 := hall (n + 1) (by simp; omega)
    rw [← List.isPrefixOf_iff_prefix] at h2
    simp only [List.drop_succ_cons] at h2
    simp [h2]

theorem tryMatchANN_render (e : AnnEntryCore) (rest : List Char) (he : e.ok = true)
    (hrest : rest.head? = some '|' ∨ rest = []) :
    tryMatchANN (e.render ++ rest) = some (e.prot, rest) := by
  have h := he
  rw [AnnEntryCore.ok] at h
  simp only [Bool.and_eq_true, Bool.not_eq_true', List.isEmpty_eq_false] at h
  obtain ⟨⟨⟨⟨⟨hd1ne, hd1⟩, hd2ne⟩, hd2⟩, hnuc⟩, hprot⟩ := h
  have hd1' : ∀ x ∈ e.d1, Char.isDigit x = true := by
    simpa [List.all_eq_true] using hd1
  have hd2' : ∀ x ∈ e.d2, Char.isDigit x = true := by
    simpa [List.all_eq_true] using hd2
  have hnuc' : ∀ x ∈ e.nuc, nucClassChar x = true := by
    simpa [List.all_eq_true] using hnuc
  have hprot' : ∀ x ∈ e.prot, (!(x = '|')) = true := by
    simpa [List.all_eq_true] using hprot
  have hshape : e.render ++ rest =
      pcLit ++ (e.d1 ++ '/' :: (e.d2 ++ '|' :: (e.nuc ++ '|' :: (e.prot ++ rest)))) := by
    simp [AnnEntryCore.render]
  rw [hshape]
  unfold tryMatchANN
  rw [if_pos (by simpa using List.prefix_append pcLit _)]
  simp only [List.drop_left]
  rw [takeWhile_append_stop hd1' (by decide), dropWhile_append_stop hd1' (by decide)]
  rw [if_neg (by simpa [List.isEmpty_iff] using hd1ne)]
  rw [if_pos (show (('/' :: (e.d2 ++ '|' :: (e.nuc ++ '|' :: (e.prot ++ rest)))).head? =
    some '/') from rfl)]
  simp only [List.tail_cons]
  rw [takeWhile_append_stop hd2' (by decide), dropWhile_append_stop hd2' (by decide)]
  rw [if_neg (by simpa [List.isEmpty_iff] using hd2ne)]
  rw [if_pos (show (('|' :: (e.nuc ++ '|' :: (e.prot ++ rest))).head? = some '|') from rfl)]
  simp only [List.tail_cons]
  rw [dropWhile_append_stop hnuc' (by decide)]
  rw [if_pos (show (('|' :: (e.prot ++ rest)).head? = some '|') from rfl)]
  simp only [List.tail_cons]
  rcases hrest with hh | rfl
  · cases rest with
    | nil => simp at hh
    | cons rh rt =>
      have hrh : rh = '|' := by simpa using hh
      subst hrh
      rw [takeWhile_append_stop hprot' (by decide), dropWhile_append_stop hprot' (by decide)]
  · rw [List.append_nil]
    have h1 : e.prot.takeWhile (fun ch => !(ch = '|')) = e.prot :=
      List.takeWhile_eq_self_iff.mpr hprot'
    have h2 : e.prot.dropWhile (fun ch => !(ch = '|')) = [] :=
      List.dropWhile_eq_nil_iff.mpr hprot'
    rw [h1, h2]

theorem scanANN_annChunks (items : List (AnnEntryCore × List Char))
    (h : annChunksOk items = true) :
    scanANN (annChunks items) = items.map fun it => it.1.prot := by
  induction items with
  | nil => simp [annChunks, scanANN_nil]
  | cons it t ih =>
    obtain ⟨e, gap⟩ := it
    have h' := h
    rw [annChunksOk] at h'
    simp only [Bool.and_eq_true, Bool.or_eq_true, List.isEmpty_iff, decide_eq_true_eq] at h'
    obtain ⟨⟨⟨he, hgap⟩, hns⟩, ht⟩ := h'
    have hrest : (gap ++ annChunks t).head? = some '|' ∨ gap ++ annChunks t = [] := by
      rcases hgap with hh | ⟨hg, ht0⟩
      · left
        cases gap with
        | nil => simp at hh
        | cons g gt => simpa using hh
      · right
        rw [hg, ht0]
        simp [annChunks]
    rw [show annChunks ((e, gap) :: t) = e.render ++ (gap ++ annChunks t) from rfl]
    rw [scanANN_some (tryMatchANN_render e (gap ++ annChunks t) he hrest)]
    rw [scanANN_append_of_noStart gap (annChunks t) hns, ih ht]
    simp

/-- Counterexample to C4: an INFO text whose single protein-coding transcript
annotation entry has exon rank present but an EMPTY protein-level change
field. The claim says such an entry is excluded from the result of
extract_protein_mutations; the code includes it, as the empty string (it is
only discarded later, by the normalizer). -/
theorem extract_empty_protein_included_counterexample :
    extract_protein_mutations "protein_coding|1/1|c.9C>T||x" = [""] ∧
    "" ∈ extract_protein_mutations "protein_coding|1/1|c.9C>T||x" := by
  constructor
  · decide
  · decide

/-- C4 (amended): for an INFO text consisting of arbitrary text (in which no
match of the pattern can start) followed by well-formed protein-coding
transcript annotation entries with exon rank present, each followed by its
remaining fields, extract_protein_mutations returns exactly the protein-level
change fields of those entries, in order, INCLUDING empty ones; an empty
protein-level change is excluded only later, by the normalizer, which drops
the empty string without error. -/
theorem extract_protein_mutations_characterization (g0 : List Char)
    (items : List (AnnEntryCore × List Char))
    (h0 : noStartB g0 (annChunks items) = true)
    (h : annChunksOk items = true) :
    extract_protein_mutations (String.mk (g0 ++ annChunks items)) =
      (items.map fun it => String.mk it.1.prot) ∧
    convert_protein_mutations_from_3_to_1_letters [""] = [] := by
  constructor
  · unfold extract_protein_mutations
    rw [show (String.mk (g0 ++ annChunks items)).data = g0 ++ annChunks items from rfl]
    rw [scanANN_append_of_noStart g0 _ h0, scanANN_annChunks items h]
    simp
  · decide

/-- Witness for C4: a two-entry INFO text in the SnpEff layout, the first
entry carrying protein change p.Ser3Ser, the second carrying an empty
protein change, which appears in the result as the empty string. -/
theorem extract_protein_mutations_characterization_witness :
    extract_protein_mutations (String.mk
      ("ANN=T|missense_variant|LOW|ORF1ab|G1|transcript|T1|".data ++
        annChunks
          [(⟨"1".data, "2".data, "c.9C>T".data, "p.Ser3Ser".data⟩,
              "|9/21291|3/7096||,T|x|LOW|ORF1ab|G1|transcript|T2|".data),
            (⟨"1".data, "1".data, "c.9C>T".data, "".data⟩, "|9/540||".data)])) =
      ["p.Ser3Ser", ""] ∧
    convert_protein_mutations_from_3_to_1_letters [""] = [] := by
  have h := extract_protein_mutations_characterization
    "ANN=T|missense_variant|LOW|ORF1ab|G1|transcript|T1|".data
    [(⟨"1".data, "2".data, "c.9C>T".data, "p.Ser3Ser".data⟩,
        "|9/21291|3/7096||,T|x|LOW|ORF1ab|G1|transcript|T2|".data),
      (⟨"1".data, "1".data, "c.9C>T".data, "".data⟩, "|9/540||".data)]
    (by decide) (by decide)
  simpa using h

/-! ## Mapping table assembler (make_mutation_mapping_csv) -/

/-- Digit extraction for the decimal rendering, most significant first; the
fuel argument (always at least the value) makes the recursion structural. -/
def natToDecimalAux : Nat → Nat → List Char
  | 0, _ => []
  | fuel + 1, n =>
    if n = 0 then [] else natToDecimalAux fuel (n / 10) ++ [Nat.digitChar (n % 10)]

/-- Decimal rendering of a natural number, as Python str. -/
def natToDecimal (n : Nat) : List Char :=
  if n = 0 then ['0'] else natToDecimalAux n n

/-- Integer parsing of a decimal digit string, as the variant-file reader
types the POS column. -/
def decimalToNat (cs : List Char) : Nat :=
  cs.foldl (fun acc c => acc * 10 + (c.toNat - 48)) 0

/-- One data row of the annotated variant file as the assembler reads it:
the POS, REF, ALT and INFO columns. -/
structure VcfRow where
  pos : Nat
  ref : String
  alt : String
  info : String

/-- The nucleotide-change key built for a row:
str(row POS) + row REF + greater-than + row ALT. -/
def nucMutationString (r : VcfRow) : String :=
  String.mk (natToDecimal r.pos) ++ r.ref ++ ">" ++ r.alt

/-- The pre-filter of make_mutation_mapping_csv: a row is skipped when its
REF is longer than one character or equals N, or its ALT is longer than one
character or equals N. -/
def skipRow (r : VcfRow) : Bool :=
  r.ref.length > 1 || r.ref == "N" || r.alt.length > 1 || r.alt == "N"

/-- The mapping-table lines make_mutation_mapping_csv writes for one row:
nothing if the row is skipped; otherwise one semicolon-joined line per
converted mutation, after the extracted raw mutations are deduplicated as a
set (modelled as List.dedup; the multiset of converted outputs is
independent of the iteration order of the Python set). -/
def mappingRowsForRecord (r : VcfRow) : List String :=
  if skipRow r then []
  else
    (convert_protein_mutations_from_3_to_1_letters
        (extract_protein_mutations r.info).dedup).map
      fun m => nucMutationString r ++ ";" ++ m

/-- All data lines of the output table, in row order: the loop writes each
row's lines then continues with the next row. -/
def make_mutation_mapping_rows (rows : List VcfRow) : List String :=
  rows.flatMap mappingRowsForRecord

/-- C5: a record whose REF or ALT is multi-character or equals N produces
zero mapping rows, whatever its INFO content, and removing it from the row
stream leaves the output of all other records unchanged (processing
continues). -/
theorem skip_nonrelevant_record (r : VcfRow) (pre post : List VcfRow)
    (h : 1 < r.ref.length ∨ r.ref = "N" ∨ 1 < r.alt.length ∨ r.alt = "N") :
    mappingRowsForRecord r = [] ∧
    make_mutation_mapping_rows (pre ++ r :: post) =
      make_mutation_mapping_rows pre ++ make_mutation_mapping_rows post := by
  have hskip : skipRow r = true := by
    rw [skipRow]
    rcases h with h | h | h | h <;> simp [h]
  have h1 : mappingRowsForRecord r = [] := by
    rw [mappingRowsForRecord, if_pos hskip]
  exact ⟨h1, by simp [make_mutation_mapping_rows, h1]⟩

/-- Witness for C5: a REF=AT record with a protein-coding annotation entry
yields no row, and its neighbours' rows are exactly the output. -/
theorem skip_nonrelevant_record_witness :
    mappingRowsForRecord ⟨9, "AT", "T", "protein_coding|1/1|c.9C>T|p.Ser3Ser|x"⟩ = [] ∧
    make_mutation_mapping_rows
        [⟨9, "C", "T", "protein_coding|1/1|c.9C>T|p.Ser3Ser|x"⟩,
         ⟨9, "AT", "T", "protein_coding|1/1|c.9C>T|p.Ser3Ser|x"⟩,
         ⟨7, "G", "A", "protein_coding|1/1|c.7G>A|p.Ala3Thr|x"⟩] =
      make_mutation_mapping_rows [⟨9, "C", "T", "protein_coding|1/1|c.9C>T|p.Ser3Ser|x"⟩] ++
        make_mutation_mapping_rows [⟨7, "G", "A", "protein_coding|1/1|c.7G>A|p.Ala3Thr|x"⟩] :=
  skip_nonrelevant_record ⟨9, "AT", "T", "protein_coding|1/1|c.9C>T|p.Ser3Ser|x"⟩
    [⟨9, "C", "T", "protein_coding|1/1|c.9C>T|p.Ser3Ser|x"⟩]
    [⟨7, "G", "A", "protein_coding|1/1|c.7G>A|p.Ala3Thr|x"⟩]
    (Or.inl (by decide))

theorem count_filterMap_eq_countP {α β : Type} [DecidableEq β]
    (f : α → Option β) (l : List α) (b : β) :
    (l.filterMap f).count b = l.countP fun a => f a == some b := by
  induction l with
  | nil => rfl
  | cons x t ih =>
    rw [List.filterMap_cons, List.countP_cons]
    cases hx : f x with
    | none => simp [hx, ih]
    | some y =>
      rw [List.count_cons, ih]
      simp [hx]

theorem string_append_left_inj (s : String) :
    Function.Injective fun t => s ++ t := by
  intro a b h
  apply String.ext
  have h2 := congrArg String.data h
  simp only [String.data_append] at h2
  exact List.append_cancel_left h2

/-- The rows a surviving record contributes, counted per output line: for
every normalized form n, the number of lines pos-ref-alt semicolon n equals
the number of DISTINCT raw protein strings of the record that normalize
to n. -/
theorem count_mappingRowsForRecord (r : VcfRow) (n : String)
    (hskip : skipRow r = false) :
    (mappingRowsForRecord r).count (nucMutationString r ++ ";" ++ n) =
      (extract_protein_mutations r.info).dedup.countP
        (fun raw => convertOneProteinMutation raw == some n) := by
  rw [mappingRowsForRecord, if_neg (by simp [hskip])]
  have hmap : ∀ (l : List String),
      (l.map fun m => nucMutationString r ++ ";" ++ m).count
          (nucMutationString r ++ ";" ++ n) = l.count n := by
    intro l
    have e : (fun m => nucMutationString r ++ ";" ++ m) =
        fun m => (nucMutationString r ++ ";") ++ m := by
      funext m
      simp [String.append_assoc]
    rw [e, show nucMutationString r ++ ";" ++ n = (nucMutationString r ++ ";") ++ n by
      simp [String.append_assoc]]
    exact List.count_map_of_injective l _ (string_append_left_inj (nucMutationString r ++ ";")) n
  rw [hmap, convert_protein_mutations_from_3_to_1_letters,
    count_filterMap_eq_countP]

/-- A record whose two protein-coding annotation entries carry the DISTINCT
raw protein strings p.Ser3Ser and p.Ser3Serx, both of which normalize to
S3S. -/
def twoRawOneNormRow : VcfRow :=
  ⟨9, "C", "T",
    "ANN=T|a|LOW|G|G1|transcript|T1|protein_coding|1/2|c.9C>T|p.Ser3Ser|9/21291,T|b|LOW|G|G1|transcript|T2|protein_coding|1/1|c.9C>T|p.Ser3Serx|9/540"⟩

set_option maxRecDepth 40000 in
/-- Counterexample to C3: the raw protein strings p.Ser3Ser and p.Ser3Serx
are distinct, so the per-record set-deduplication keeps both, yet both
normalize to S3S: the record emits TWO identical rows 9C-greater-T
semicolon S3S, so the raw-level dedup does NOT collapse transcript
annotations that yield the same normalized protein mutation. -/
theorem dedup_does_not_collapse_normalized_counterexample :
    extract_protein_mutations twoRawOneNormRow.info = ["p.Ser3Ser", "p.Ser3Serx"] ∧
    (mappingRowsForRecord twoRawOneNormRow).count "9C>T;S3S" = 2 := by
  constructor
  · decide
  · decide

/-- C3 (amended): for every surviving record, the rows it emits contain
exactly one row per distinct RAW protein mutation string that normalizes
successfully: the count of a given output line equals the number of distinct
raw strings normalizing to its protein part. Distinct raw strings with the
same normalized form each contribute a row, so the raw-level set-dedup does
not bound the table at one row per distinct NORMALIZED change. -/
theorem mappingRows_one_row_per_distinct_raw (r : VcfRow) (n : String)
    (hskip : skipRow r = false) :
    (mappingRowsForRecord r).count (nucMutationString r ++ ";" ++ n) =
      (extract_protein_mutations r.info).dedup.countP
        (fun raw => convertOneProteinMutation raw == some n) :=
  count_mappingRowsForRecord r n hskip

set_option maxRecDepth 40000 in
/-- Witness for C3: the amended count equation at the two-raw record, where
both sides evaluate to 2. -/
theorem mappingRows_one_row_per_distinct_raw_witness :
    (mappingRowsForRecord twoRawOneNormRow).count
        (nucMutationString twoRawOneNormRow ++ ";" ++ "S3S") =
      (extract_protein_mutations twoRawOneNormRow.info).dedup.countP
        (fun raw => convertOneProteinMutation raw == some "S3S") :=
  mappingRows_one_row_per_distinct_raw twoRawOneNormRow "S3S" (by decide)

/-- A record with three protein-coding annotation entries: two reporting the
identical raw string p.Ser3Ser and a third reporting p.Ser3Serx, which also
normalizes to S3S. -/
def threeEntryRow : VcfRow :=
  ⟨9, "C", "T",
    "ANN=T|a|LOW|G|G1|transcript|T1|protein_coding|1/2|c.9C>T|p.Ser3Ser|9/21291,T|b|LOW|G|G1|transcript|T2|protein_coding|1/1|c.9C>T|p.Ser3Ser|9/540,T|b|LOW|G|G1|transcript|T3|protein_coding|1/1|c.9C>T|p.Ser3Serx|9/540"⟩

set_option maxRecDepth 40000 in
/-- Counterexample to C6: this record has two (or more) transcript
annotation entries reporting the identical raw protein change p.Ser3Ser, yet
it emits TWO rows with the normalized form S3S, not exactly one, because a
further entry carries the distinct raw string p.Ser3Serx with the same
normalized form. -/
theorem identical_raw_two_rows_counterexample :
    extract_protein_mutations threeEntryRow.info =
      ["p.Ser3Ser", "p.Ser3Ser", "p.Ser3Serx"] ∧
    (mappingRowsForRecord threeEntryRow).count "9C>T;S3S" = 2 := by
  constructor
  · decide
  · decide

theorem countP_eq_one_of_unique {α : Type} {p : α → Bool} {l : List α} {a : α}
    (hnd : l.Nodup) (ha : a ∈ l) (hpa : p a = true)
    (huniq : ∀ x ∈ l, p x = true → x = a) :
    l.countP p = 1 := by
  induction l with
  | nil => simp at ha
  | cons x t ih =>
    rw [List.countP_cons]
    rcases List.mem_cons.mp ha with rfl | hat
    · have ht0 : t.countP p = 0 := by
        rw [List.countP_eq_zero]
        intro y hy hpy
        have hya := huniq y (List.mem_cons_of_mem _ hy) hpy
        subst hya
        exact (List.nodup_cons.mp hnd).1 hy
      simp [ht0, hpa]
    · have hx : p x = false := by
        cases hpx : p x with
        | false => rfl
        | true =>
          have hxa := huniq x (List.mem_cons_self _ _) hpx
          subst hxa
          exact absurd hat (List.nodup_cons.mp hnd).1
      rw [hx]
      simp only [if_false, Bool.false_eq_true, Nat.add_zero]
      exact ih (List.nodup_cons.mp hnd).2 hat
        fun y hy hpy => huniq y (List.mem_cons_of_mem _ hy) hpy

/-- C6 (amended): if a surviving record's transcript annotations report the
identical raw protein change string two or more times, and no OTHER distinct
raw string of that record normalizes to the same 1-letter form, then exactly
one mapping row with that normalized form is emitted for the record, not
two: the set-dedup collapses the identical raw strings. -/
theorem identical_raws_collapse_to_one_row (r : VcfRow) (raw n : String)
    (hskip : skipRow r = false)
    (hcount : 2 ≤ (extract_protein_mutations r.info).count raw)
    (hconv : convertOneProteinMutation raw = some n)
    (huniq : ∀ raw' ∈ extract_protein_mutations r.info,
      convertOneProteinMutation raw' = some n → raw' = raw) :
    (mappingRowsForRecord r).count (nucMutationString r ++ ";" ++ n) = 1 := by
  rw [count_mappingRowsForRecord r n hskip]
  have hmem : raw ∈ (extract_protein_mutations r.info).dedup :=
    List.mem_dedup.mpr (List.count_pos_iff.mp (by omega))
  apply countP_eq_one_of_unique (List.nodup_dedup _) hmem
  · simp [hconv]
  · intro x hx hpx
    exact huniq x (List.mem_dedup.mp hx) (by simpa using hpx)

/-- A record whose two protein-coding annotation entries both report the
identical raw protein change p.Ser3Ser. -/
def twoIdenticalRawRow : VcfRow :=
  ⟨9, "C", "T",
    "ANN=T|a|LOW|G|G1|transcript|T1|protein_coding|1/2|c.9C>T|p.Ser3Ser|9/21291,T|b|LOW|G|G1|transcript|T2|protein_coding|1/1|c.9C>T|p.Ser3Ser|9/540"⟩

set_option maxRecDepth 40000 in
/-- Witness for C6: the record with exactly two identical p.Ser3Ser
annotations emits exactly one S3S row. -/
theorem identical_raws_collapse_to_one_row_witness :
    (mappingRowsForRecord twoIdenticalRawRow).count
        (nucMutationString twoIdenticalRawRow ++ ";" ++ "S3S") = 1 :=
  identical_raws_collapse_to_one_row twoIdenticalRawRow "p.Ser3Ser" "S3S"
    (by decide) (by decide) (by decide) (by decide)

/-! ## Serialization round-trip (generate_dummy_vcf writer, assembler reader) -/

/-- One data line of the synthetic variant file, as generate_dummy_vcf
writes it (without the terminating newline): the reference identifier, the
position, a dot placeholder, REF and ALT, tab-separated. -/
def serializeVcfDataLine (pos : Nat) (ref alt : String) : List Char :=
  List.intercalate ['\t'] [GENOME_REF.data, natToDecimal pos, ['.'], ref.data, alt.data]

/-- Reading one data line the way make_mutation_mapping_csv does: the line is
split at tabs into the columns of the written header, and the POS (index 1,
parsed as an integer), REF (index 3) and ALT (index 4) columns are used. -/
def parseVcfDataLine (cs : List Char) : Option (Nat × String × String) :=
  match cs.splitOn '\t' with
  | _chrom :: pos :: _id :: ref :: alt :: _rest =>
    some (decimalToNat pos, String.mk ref, String.mk alt)
  | _ => none

theorem digitChar_isDigit (d : Nat) (h : d < 10) : (Nat.digitChar d).isDigit = true := by
  interval_cases d <;> decide

theorem digitChar_toNat (d : Nat) (h : d < 10) : (Nat.digitChar d).toNat = 48 + d := by
  interval_cases d <;> decide

theorem decimalToNat_append_digit (xs : List Char) (c : Char) :
    decimalToNat (xs ++ [c]) = decimalToNat xs * 10 + (c.toNat - 48) := by
  rw [decimalToNat, decimalToNat, List.foldl_append]
  rfl

theorem natToDecimalAux_correct : ∀ fuel n : Nat, 0 < n → n ≤ fuel →
    decimalToNat (natToDecimalAux fuel n) = n := by
  intro fuel
  induction fuel with
  | zero => intro n h1 h2; omega
  | succ f ih =>
    intro n h1 h2
    rw [natToDecimalAux, if_neg (by omega), decimalToNat_append_digit,
      digitChar_toNat _ (Nat.mod_lt n (by omega))]
    by_cases h10 : n < 10
    · rw [Nat.div_eq_of_lt h10]
      have haux : natToDecimalAux f 0 = [] := by cases f <;> simp [natToDecimalAux]
      rw [haux]
      show 0 * 10 + (48 + n % 10 - 48) = n
      omega
    · have hdiv : 0 < n / 10 := Nat.div_pos (by omega) (by omega)
      have hlt := Nat.div_lt_self h1 (by omega : 1 < 10)
      rw [ih (n / 10) hdiv (by omega)]
      omega

theorem decimalToNat_natToDecimal (n : Nat) : decimalToNat (natToDecimal n) = n := by
  by_cases h : n = 0
  · subst h; decide
  · rw [natToDecimal, if_neg h]
    exact natToDecimalAux_correct n n (by omega) le_rfl

theorem natToDecimalAux_chars : ∀ fuel n : Nat, ∀ c ∈ natToDecimalAux fuel n,
    c.isDigit = true := by
  intro fuel
  induction fuel with
  | zero => intro n c hc; simp [natToDecimalAux] at hc
  | succ f ih =>
    intro n c hc
    rw [natToDecimalAux] at hc
    by_cases h0 : n = 0
    · rw [if_pos h0] at hc; simp at hc
    · rw [if_neg h0] at hc
      rcases List.mem_append.mp hc with hc | hc
      · exact ih (n / 10) c hc
      · have : c = Nat.digitChar (n % 10) := by simpa using hc
        subst this
        exact digitChar_isDigit _ (Nat.mod_lt n (by omega))

theorem natToDecimal_no_tab (n : Nat) : '\t' ∉ natToDecimal n := by
  intro hmem
  rw [natToDecimal] at hmem
  by_cases h0 : n = 0
  · rw [if_pos h0] at hmem; simp at hmem
  · rw [if_neg h0] at hmem
    have := natToDecimalAux_chars n n '\t' hmem
    simp at this

/-- C9: serializing a substitution record (positive position, single
nucleotide REF and ALT) as a tab-separated data line the way
generate_dummy_vcf does, then reading the POS, REF and ALT columns of that
line the way make_mutation_mapping_csv does, recovers the identical
(position, ref, alt) triple. -/
theorem vcf_line_roundtrip (pos : Nat) (ref alt : Char)
    (hpos : 1 ≤ pos) (href : ref ∈ nucleotides) (halt : alt ∈ nucleotides) :
    parseVcfDataLine (serializeVcfDataLine pos (String.mk [ref]) (String.mk [alt])) =
      some (pos, String.mk [ref], String.mk [alt]) := by
  have hsingle : ∀ c : Char, c ∈ nucleotides → '\t' ∉ [c] := by
    intro c hc hmem
    have hct : '\t' = c := by simpa using hmem
    rw [← hct] at hc
    simp [nucleotides] at hc
  have hsplit : (List.intercalate ['\t']
      [GENOME_REF.data, natToDecimal pos, ['.'], [ref], [alt]]).splitOn '\t' =
      [GENOME_REF.data, natToDecimal pos, ['.'], [ref], [alt]] := by
    apply List.splitOn_intercalate
    · intro l hl
      simp only [List.mem_cons, List.not_mem_nil, or_false] at hl
      rcases hl with rfl | rfl | rfl | rfl | rfl
      · decide
      · exact natToDecimal_no_tab pos
      · decide
      · exact hsingle ref href
      · exact hsingle alt halt
    · simp
  rw [serializeVcfDataLine, parseVcfDataLine,
    show (String.mk [ref]).data = [ref] from rfl,
    show (String.mk [alt]).data = [alt] from rfl, hsplit]
  show some (decimalToNat (natToDecimal pos), String.mk [ref], String.mk [alt]) =
    some (pos, String.mk [ref], String.mk [alt])
  rw [decimalToNat_natToDecimal]

/-- Witness for C9: the round trip at position 5262 with REF C and ALT T. -/
theorem vcf_line_roundtrip_witness :
    parseVcfDataLine (serializeVcfDataLine 5262 (String.mk ['C']) (String.mk ['T'])) =
      some (5262, String.mk ['C'], String.mk ['T']) :=
  vcf_line_roundtrip 5262 'C' 'T' (by decide) (by decide) (by decide)

end MutationMap
